import Mathlib

/-!
Verification of the tetrust core (src/main.rs): board model, collision
algorithm, line clearing, piece rotation, the piece bag and the game-state
transitions.  Every definition is a shallow embedding of the corresponding
Rust item; machine integers are modelled by `Nat`/`Int`, Rust panics
(index underflow / out-of-bounds, `panic!`) are modelled by `Option` with
`none` for the panicking execution, and the thread RNG is modelled by an
explicit stream of natural numbers (`List Nat`, drawing `0` past the end).
-/

namespace Tetrust

/-- Colors used by the pieces and board cells (from `util::Color`). -/
inductive Color where
  | Black
  | Red
  | Green
  | Orange
  | Blue
  | Purple
  | Cyan
deriving DecidableEq, Repr

/-- A board cell: `none` is empty, `some c` is a locked block of color `c`
(`Option<Color>` in the source). -/
abbrev Cell := Option Color

/-- `const BOARD_WIDTH: u32 = 10`. -/
def BOARD_WIDTH : Nat := 10

/-- `const BOARD_HEIGHT: u32 = 20`. -/
def BOARD_HEIGHT : Nat := 20

/-- `struct Point { x: i32, y: i32 }`. -/
structure Point where
  x : Int
  y : Int
deriving DecidableEq, Repr

/-- `enum Direction` (from `util`): the two rotation directions. -/
inductive Direction where
  | Left
  | Right
deriving DecidableEq, Repr

/-- `struct Piece { color: Color, shape: Vec<Vec<u8>> }`.  The shapes built
by the program are always square `N x N` matrices with `N` in 2..4. -/
structure Piece where
  color : Color
  shape : List (List Nat)
deriving DecidableEq, Repr

instance : Inhabited Piece := ⟨⟨Color.Black, []⟩⟩

namespace Piece

/-- `Piece::new_o`. -/
def new_o : Piece := ⟨Color.Cyan, [[1, 1], [1, 1]]⟩

/-- `Piece::new_l`. -/
def new_l : Piece := ⟨Color.Orange, [[0, 0, 1], [1, 1, 1], [0, 0, 0]]⟩

/-- `Piece::new_j`. -/
def new_j : Piece := ⟨Color.Blue, [[1, 0, 0], [1, 1, 1], [0, 0, 0]]⟩

/-- `Piece::new_t`. -/
def new_t : Piece := ⟨Color.Purple, [[0, 1, 0], [1, 1, 1], [0, 0, 0]]⟩

/-- `Piece::new_s`. -/
def new_s : Piece := ⟨Color.Green, [[0, 1, 1], [1, 1, 0], [0, 0, 0]]⟩

/-- `Piece::new_z`. -/
def new_z : Piece := ⟨Color.Red, [[1, 1, 0], [0, 1, 1], [0, 0, 0]]⟩

/-- `Piece::new_i`. -/
def new_i : Piece :=
  ⟨Color.Cyan, [[0, 0, 0, 0], [1, 1, 1, 1], [0, 0, 0, 0], [0, 0, 0, 0]]⟩

/-- The side length of the (square) shape matrix, `self.shape.len()`. -/
def size (p : Piece) : Nat := p.shape.length

/-- Read entry `(r, c)` of a shape matrix (the program only reads indices
that are in range of its square shapes). -/
def entry (m : List (List Nat)) (r c : Nat) : Nat := (m.getD r []).getD c 0

/-- Write entry `(r, c)` of a shape matrix. -/
def writeEntry (m : List (List Nat)) (r c : Nat) (v : Nat) : List (List Nat) :=
  m.set r ((m.getD r []).set c v)

/-- One four-way cyclic swap of `Piece::rotate` at ring position
`(row, col)` of an `size x size` matrix, performed as the source performs
it: four sequential in-place writes reading the current matrix. -/
def rotateStep (direction : Direction) (size row col : Nat)
    (m : List (List Nat)) : List (List Nat) :=
  let t := entry m row col
  match direction with
  | Direction.Left =>
    let m1 := writeEntry m row col (entry m col (size - row - 1))
    let m2 := writeEntry m1 col (size - row - 1)
      (entry m1 (size - row - 1) (size - col - 1))
    let m3 := writeEntry m2 (size - row - 1) (size - col - 1)
      (entry m2 (size - col - 1) row)
    writeEntry m3 (size - col - 1) row t
  | Direction.Right =>
    let m1 := writeEntry m row col (entry m (size - col - 1) row)
    let m2 := writeEntry m1 (size - col - 1) row
      (entry m1 (size - row - 1) (size - col - 1))
    let m3 := writeEntry m2 (size - row - 1) (size - col - 1)
      (entry m2 col (size - row - 1))
    writeEntry m3 col (size - row - 1) t

/-- `n / 2`, written by structural recursion so that the rotation loop
evaluates definitionally; `half_eq` proves it equal to division by two. -/
def half : Nat → Nat
  | 0 => 0
  | 1 => 0
  | n + 2 => half n + 1

/-- The nested loops of `Piece::rotate`: `row` ranges over `0..size/2` and
`col` over `row..(size-row-1)`. -/
def rotateShape (direction : Direction) (shape : List (List Nat)) :
    List (List Nat) :=
  let size := shape.length
  (List.range (half size)).foldl
    (fun m row =>
      (List.range' row (size - row - 1 - row)).foldl
        (fun m col => rotateStep direction size row col m) m)
    shape

/-- `Piece::rotate(direction)`: in-place ring rotation of the shape. -/
def rotate (p : Piece) (direction : Direction) : Piece :=
  { p with shape := rotateShape direction p.shape }

/-- The list of filled cells `(row, col)` visited by `Piece::each_point`
(row-major order over `0..shape.len() x 0..shape.len()`, keeping the
cells whose entry is nonzero). -/
def points (p : Piece) : List (Nat × Nat) :=
  (List.range p.size).flatMap fun row =>
    (List.range p.size).filterMap fun col =>
      if entry p.shape row col ≠ 0 then some (row, col) else none

/-- A filled cell of a piece, as traversed by `each_point`. -/
def IsFilled (p : Piece) (row col : Nat) : Prop :=
  row < p.size ∧ col < p.size ∧ entry p.shape row col ≠ 0

instance (p : Piece) (row col : Nat) : Decidable (p.IsFilled row col) := by
  unfold IsFilled; infer_instance

end Piece

/-- The transpose of a square matrix: column `j` of the input becomes
row `j` of the output. -/
def transposeSq (m : List (List Nat)) : List (List Nat) :=
  (List.range m.length).map fun j => m.map fun row => row.getD j 0

/-- Rotating a matrix 90 degrees clockwise by transpose-plus-reverse:
transpose, then reverse every row. -/
def rotCW (m : List (List Nat)) : List (List Nat) :=
  (transposeSq m).map List.reverse

/-- Rotating a matrix 90 degrees counter-clockwise by transpose-plus-
reverse: reverse every row, then transpose. -/
def rotCCW (m : List (List Nat)) : List (List Nat) :=
  transposeSq (m.map List.reverse)

/-- `struct Board { cells: [[Option<Color>; BOARD_WIDTH]; BOARD_HEIGHT] }`,
modelled as a list of rows.  (`clear_lines` only uses `self.cells.len()`,
so the definitions below also make sense on other heights, which the
repository's own edge-case scenarios use.) -/
structure Board where
  cells : List (List Cell)
deriving DecidableEq, Repr

namespace Board

/-- Read a board cell; the program establishes `0 ≤ y < HEIGHT` and
`0 ≤ x < WIDTH` before every read, where the grid really has these
dimensions, so the default is never consulted on such boards. -/
def cellAt (b : Board) (y x : Nat) : Cell := (b.cells.getD y []).getD x none

/-- A board with the dimensions the Rust type fixes. -/
def WellFormed (b : Board) : Prop :=
  b.cells.length = BOARD_HEIGHT ∧ ∀ r ∈ b.cells, r.length = BOARD_WIDTH

instance (b : Board) : Decidable b.WellFormed := by
  unfold WellFormed; infer_instance

/-- The bounds-or-occupancy test of `Board::collision_test` for one filled
cell `(row, col)` of the piece at `origin`. -/
def cellViolates (b : Board) (origin : Point) (rc : Nat × Nat) : Bool :=
  let x : Int := origin.x + rc.2
  let y : Int := origin.y + rc.1
  x < 0 || x ≥ (BOARD_WIDTH : Int) || y < 0 || y ≥ (BOARD_HEIGHT : Int) ||
    b.cellAt y.toNat x.toNat ≠ none

/-- `Board::collision_test(piece, origin)`: fold over `each_point` with the
`found` flag exactly as the source does. -/
def collision_test (b : Board) (piece : Piece) (origin : Point) : Bool :=
  piece.points.foldl
    (fun found rc => if found then found else b.cellViolates origin rc) false

/-- `Board::collision_test` with every grid read made explicit: a read is
attempted only after the four bounds tests have passed (the source's
short-circuiting `||`), and an out-of-range read would surface as `none`
(a Rust index panic). -/
def collision_test_checked (b : Board) (piece : Piece) (origin : Point) :
    Option Bool :=
  piece.points.foldlM
    (fun found rc =>
      if found then some true
      else
        let x : Int := origin.x + rc.2
        let y : Int := origin.y + rc.1
        if x < 0 || x ≥ (BOARD_WIDTH : Int) || y < 0 ||
            y ≥ (BOARD_HEIGHT : Int) then
          some true
        else
          match b.cells.get? y.toNat with
          | none => none
          | some row =>
            match row.get? x.toNat with
            | none => none
            | some cell => some (cell ≠ none))
    false

/-- `Board::lock_piece(piece, origin)`: write the piece's color into each of
its filled cells' absolute positions.  The caller (the game) only locks at
a collision-free origin, where every absolute coordinate is in range. -/
def lock_piece (b : Board) (piece : Piece) (origin : Point) : Board :=
  ⟨piece.points.foldl
    (fun cells rc =>
      let y := (origin.y + rc.1).toNat
      let x := (origin.x + rc.2).toNat
      cells.set y ((cells.getD y []).set x (some piece.color)))
    b.cells⟩

/-- `!self.cells[row].iter().any(|x| *x == None)`: a row is full when it
has no empty cell. -/
def rowFull (r : List Cell) : Bool := !(r.any fun x => x == none)

/-- `[None; BOARD_WIDTH]`. -/
def emptyRow : List Cell := List.replicate BOARD_WIDTH none

/-- The inner `while` of `Board::clear_lines` at row index `row` with
`cleared` lines counted so far.  `none` models the Rust panic from the
usize underflow of `row - cleared_lines` (and an out-of-range row read,
which cannot occur from `clear_lines`).  The loop is run on explicit fuel
so that it evaluates by structural recursion; each iteration increases
`cleared` by one and the loop panics as soon as `cleared` exceeds `row`,
so the fuel `row + 2` the caller supplies can never run out (the `0` case
is unreachable from `clear_lines`). -/
def clearWhile : Nat → List (List Cell) → Nat → Nat →
    Option (List (List Cell) × Nat)
  | 0, _, _, _ => none
  | fuel + 1, cells, row, cleared =>
    match cells.get? row with
    | none => none
    | some r =>
      if rowFull r then
        let cleared1 := cleared + 1
        if row < cleared1 then none
        else
          match cells.get? (row - cleared1) with
          | none => none
          | some src =>
            clearWhile fuel ((cells.set row src).set (row - cleared1)
              emptyRow) row cleared1
      else some (cells, cleared)

/-- The outer `for row in (0..len).rev()` loop of `Board::clear_lines`,
about to process row index `row` with `cleared` lines counted so far. -/
def clearOuter : List (List Cell) → Nat → Nat →
    Option (List (List Cell) × Nat)
  | cells, row, cleared =>
    if row < cleared then some (cells, cleared)
    else
      let shifted : Option (List (List Cell)) :=
        if 0 < cleared then
          match cells.get? (row - cleared) with
          | none => none
          | some src =>
            some ((cells.set row src).set (row - cleared) emptyRow)
        else some cells
      match shifted with
      | none => none
      | some cells1 =>
        match clearWhile (row + 2) cells1 row cleared with
        | none => none
        | some (cells2, cleared2) =>
          match row with
          | 0 => some (cells2, cleared2)
          | r + 1 => clearOuter cells2 r cleared2

/-- `Board::clear_lines() -> u32`, on the row list.  `some (cells, n)` is a
normal return of `n` with the new grid; `none` is the panicking execution
(usize underflow of `row - cleared_lines`). -/
def clear_lines (cells : List (List Cell)) : Option (List (List Cell) × Nat) :=
  match cells.length with
  | 0 => some (cells, 0)
  | n + 1 => clearOuter cells n 0

end Board

/-- The stream of values drawn from `rand::thread_rng` (`rng.gen::<usize>()`),
made explicit: successive draws are the successive list entries. -/
abbrev Rng := List Nat

/-- `Vec::swap_remove(i)`: return element `i`, move the last element into
slot `i`, and drop the last slot.  Faithful for `i < l.length`, the only
way the source calls it. -/
def swapRemove (l : List Piece) (i : Nat) : Piece × List Piece :=
  (l.getD i default, (l.set i (l.getLastD default)).dropLast)

namespace PieceBag

/-- The pool `fill_bag` starts from: one piece of each of the seven types,
in the order the source lists them. -/
def sevenPieces : List Piece :=
  [Piece.new_o, Piece.new_l, Piece.new_j, Piece.new_t, Piece.new_s,
   Piece.new_z, Piece.new_i]

/-- The `while !pieces.is_empty()` loop of `PieceBag::fill_bag`: draw a
random index into the remaining pool, `swap_remove` it and push it onto the
queue `acc`. -/
def fillBagAux (acc : List Piece) (pool : List Piece) (rng : Rng) :
    List Piece × Rng :=
  match pool with
  | [] => (acc, rng)
  | p :: rest =>
    let i := rng.headD 0 % (p :: rest).length
    let pr := swapRemove (p :: rest) i
    fillBagAux (acc ++ [pr.1]) pr.2 rng.tail
termination_by pool.length
decreasing_by simp [swapRemove]

/-- `PieceBag::fill_bag`: append a random permutation of the seven pieces
to the queue. -/
def fill_bag (pieces : List Piece) (rng : Rng) : List Piece × Rng :=
  fillBagAux pieces sevenPieces rng

/-- `PieceBag::new()`: start from an empty queue and fill it. -/
def new (rng : Rng) : List Piece × Rng := fill_bag [] rng

/-- `PieceBag::pop()`: remove the front of the queue; if the queue became
empty, refill it before returning.  `none` models the panic of
`Vec::remove(0)` on an empty queue (unreachable through the bag's API). -/
def pop (pieces : List Piece) (rng : Rng) :
    Option (Piece × List Piece × Rng) :=
  match pieces with
  | [] => none
  | p :: rest =>
    if rest.isEmpty then
      let fr := fill_bag rest rng
      some (p, fr.1, fr.2)
    else some (p, rest, rng)

/-- `PieceBag::peek()`: a copy of the front of the queue; `none` models the
`panic!("No next piece in piece bag")` arm. -/
def peek (pieces : List Piece) : Option Piece := pieces.head?

end PieceBag

/-- `struct Game`.  The board, queue, active piece and its origin, score and
level (`duration` is carried along untouched by the transitions modelled
here). -/
structure Game where
  board : Board
  piece_bag : List Piece
  piece : Piece
  piece_position : Point
  score : Nat
  level : Nat
  duration : Nat
deriving DecidableEq, Repr

namespace Game

/-- `Game::move_piece(x, y)`: trial origin, collision test, commit on
success. -/
def move_piece (g : Game) (x y : Int) : Game × Bool :=
  let new_position : Point :=
    ⟨g.piece_position.x + x, g.piece_position.y + y⟩
  if g.board.collision_test g.piece new_position then (g, false)
  else ({ g with piece_position := new_position }, true)

/-- `Game::rotate_piece(direction)`: rotate a clone, test it at the current
origin, commit only on success. -/
def rotate_piece (g : Game) (direction : Direction) : Game × Bool :=
  let new_piece := g.piece.rotate direction
  if g.board.collision_test new_piece g.piece_position then (g, false)
  else ({ g with piece := new_piece }, true)

/-- The spawn origin of `Game::place_new_piece`:
`((BOARD_WIDTH - shape.len()) / 2, 0)` (in `u32` arithmetic; every shape
side is at most 4, so the subtraction never underflows). -/
def spawnOrigin (piece : Piece) : Point :=
  ⟨((BOARD_WIDTH - piece.size) / 2 : Nat), 0⟩

/-- `Game::place_new_piece()`: collision-test the current piece at the
spawn origin; commit the origin on success, leave the position untouched
and report `false` (game over) on failure. -/
def place_new_piece (g : Game) : Game × Bool :=
  let origin := spawnOrigin g.piece
  if g.board.collision_test g.piece origin then (g, false)
  else ({ g with piece_position := origin }, true)

/-- `Game::advance_game()`, threading the RNG stream and modelling a panic
of `clear_lines` or of `pop` as `none`. -/
def advance_game (g : Game) (rng : Rng) : Option (Game × Rng × Bool) :=
  let mv := g.move_piece 0 1
  if mv.2 then some (mv.1, rng, true)
  else
    let board1 := g.board.lock_piece g.piece g.piece_position
    match Board.clear_lines board1.cells with
    | none => none
    | some (cells2, increm) =>
      let score1 := g.score + increm
      let level1 :=
        if score1 % 10 == 0 && score1 != 0 then g.level + 1 else g.level
      match PieceBag.pop g.piece_bag rng with
      | none => none
      | some (p1, bag1, rng1) =>
        let g1 : Game :=
          { g with board := ⟨cells2⟩, score := score1, level := level1,
                   piece := p1, piece_bag := bag1 }
        let pl := g1.place_new_piece
        if pl.2 then some (pl.1, rng1, true) else some (pl.1, rng1, false)

/-- The `while !collision` loop of `Game::find_dropped_position`, with
explicit fuel: keep moving the trial origin down until it collides, then
report the row above.  The fuel below always suffices for a piece with at
least one filled cell (see the claim on `find_dropped_position`). -/
def dropLoop (b : Board) (piece : Piece) : Nat → Point → Option Point
  | 0, _ => none
  | fuel + 1, origin =>
    if b.collision_test piece origin then some ⟨origin.x, origin.y - 1⟩
    else dropLoop b piece fuel ⟨origin.x, origin.y + 1⟩

/-- `Game::find_dropped_position()`: the hard-drop projection of the active
piece (a pure function of the game; the game is not mutated). -/
def find_dropped_position (g : Game) : Option Point :=
  dropLoop g.board g.piece (BOARD_HEIGHT + g.piece.size + 1) g.piece_position

end Game

/-! ### Concrete boards and games used by the claim instances -/

/-- A full row of the fixed board width. -/
def fullRow : List Cell := List.replicate BOARD_WIDTH (some Color.Red)

/-- A non-full row holding a single block, in column `j`. -/
def oneBlockRow (j : Nat) : List Cell :=
  (List.replicate BOARD_WIDTH (none : Cell)).set j (some Color.Blue)

/-- The height-12 test board whose rows 2, 5 and 9 (top to bottom) are
full and whose other rows are non-full and mutually distinguishable. -/
def rows259 : List (List Cell) :=
  [oneBlockRow 0, oneBlockRow 1, fullRow, oneBlockRow 3, oneBlockRow 4,
   fullRow, oneBlockRow 6, oneBlockRow 7, oneBlockRow 8, fullRow,
   oneBlockRow 0, oneBlockRow 1]

/-- A height-12 board whose top row is full and whose other rows are not. -/
def topRowFull12 : List (List Cell) :=
  fullRow :: List.replicate 11 (oneBlockRow 0)

/-- The 20 x 10 board with every row full. -/
def allFull20 : List (List Cell) := List.replicate BOARD_HEIGHT fullRow

/-- The empty 20 x 10 board. -/
def emptyBoard : Board :=
  ⟨List.replicate BOARD_HEIGHT (List.replicate BOARD_WIDTH (none : Cell))⟩

/-- A game state: empty board, the O-piece resting on the floor at
`(4, 18)`, score already at 10, level 2 (as it is right after the tenth
line was cleared), two O-pieces queued. -/
def gameScore10 : Game :=
  ⟨emptyBoard, [Piece.new_o, Piece.new_o], Piece.new_o, ⟨4, 18⟩, 10, 2, 0⟩

/-- A game state one line away from its tenth clear: the bottom row is
full except columns 4 and 5, and the O-piece rests right above the gap
with score 9. -/
def gameScore9 : Game :=
  ⟨⟨emptyBoard.cells.set 19 ((fullRow.set 4 none).set 5 none)⟩,
   [Piece.new_o, Piece.new_o], Piece.new_o, ⟨4, 18⟩, 9, 1, 0⟩

/-- The state `advance_game` reaches from `gameScore9`: the completed
bottom row is gone, the two cells the O-piece left above the gap have
dropped to the bottom row, the score is 10 and the level 2. -/
def gameScore9Result : Game :=
  ⟨⟨emptyBoard.cells.set 19
      (((List.replicate BOARD_WIDTH (none : Cell)).set 4
        (some Color.Cyan)).set 5 (some Color.Cyan))⟩,
   [Piece.new_o], Piece.new_o, ⟨4, 0⟩, 10, 2, 0⟩

/-- A game state with the O-piece at the top of the empty board. -/
def gameDrop : Game :=
  ⟨emptyBoard, [Piece.new_o], Piece.new_o, ⟨4, 0⟩, 0, 1, 0⟩

/-- `gameDrop` after one successful downward move. -/
def gameDropMoved : Game :=
  ⟨emptyBoard, [Piece.new_o], Piece.new_o, ⟨4, 1⟩, 0, 1, 0⟩

/-- The lock-clear-score-pop-place pipeline that the specification
describes for a failed downward move, assembled from the component
operations `lock_piece`, `clear_lines`, `pop` and `place_new_piece`. -/
def lockStep (g : Game) (rng : Rng) : Option (Game × Rng × Bool) :=
  let board1 := g.board.lock_piece g.piece g.piece_position
  match Board.clear_lines board1.cells with
  | none => none
  | some (cells2, increm) =>
    match PieceBag.pop g.piece_bag rng with
    | none => none
    | some (p1, bag1, rng1) =>
      let g2 : Game :=
        { g with board := ⟨cells2⟩, score := g.score + increm,
                 level := if (g.score + increm) % 10 == 0 &&
                     (g.score + increm) != 0 then g.level + 1 else g.level,
                 piece := p1, piece_bag := bag1 }
      let pl := g2.place_new_piece
      some (pl.1, rng1, pl.2)

/-! ### Helper lemmas -/

theorem Piece.half_eq : ∀ n : Nat, Piece.half n = n / 2
  | 0 => rfl
  | 1 => rfl
  | n + 2 => by rw [Piece.half, Piece.half_eq n]; omega

theorem foldl_flag_eq_any {α : Type} (f : α → Bool) :
    ∀ (l : List α) (b : Bool),
      l.foldl (fun found a => if found then found else f a) b = (b || l.any f)
  | [], b => by cases b <;> simp
  | a :: l, b => by
    cases b <;> simp [foldl_flag_eq_any f l]

theorem Piece.mem_points (p : Piece) (rc : Nat × Nat) :
    rc ∈ p.points ↔ p.IsFilled rc.1 rc.2 := by
  obtain ⟨r, c⟩ := rc
  simp only [Piece.points, List.mem_flatMap, List.mem_filterMap,
    List.mem_range, Piece.IsFilled]
  constructor
  · rintro ⟨row, hrow, col, hcol, hif⟩
    by_cases h : Piece.entry p.shape row col ≠ 0
    · simp only [if_pos h] at hif
      obtain ⟨rfl, rfl⟩ := Prod.mk.injEq .. ▸ Option.some.injEq .. ▸ hif
      cases hif
      exact ⟨hrow, hcol, h⟩
    · simp [if_neg h] at hif
  · rintro ⟨hr, hc, h⟩
    exact ⟨r, hr, c, hc, by simp [if_pos h]⟩

theorem Board.collision_test_iff (b : Board) (p : Piece) (o : Point) :
    b.collision_test p o = true ↔
      ∃ rc ∈ p.points, b.cellViolates o rc = true := by
  unfold Board.collision_test
  rw [foldl_flag_eq_any]
  simp [List.any_eq_true]

theorem Board.cellViolates_iff (b : Board) (o : Point) (row col : Nat) :
    b.cellViolates o (row, col) = true ↔
      (o.x + col < 0 ∨ (BOARD_WIDTH : Int) ≤ o.x + col ∨
       o.y + row < 0 ∨ (BOARD_HEIGHT : Int) ≤ o.y + row ∨
       b.cellAt (o.y + row).toNat (o.x + col).toNat ≠ none) := by
  simp [Board.cellViolates, Bool.or_eq_true, decide_eq_true_eq,
    not_lt, ← or_assoc]

theorem Game.advance_game_of_move (g : Game) (rng : Rng)
    (hcol : g.board.collision_test g.piece
      ⟨g.piece_position.x, g.piece_position.y + 1⟩ = false) :
    Game.advance_game g rng =
      some ({ g with piece_position :=
        ⟨g.piece_position.x, g.piece_position.y + 1⟩ }, rng, true) := by
  simp [Game.advance_game, Game.move_piece, hcol]

theorem Game.advance_game_of_lock (g : Game) (rng : Rng)
    (hcol : g.board.collision_test g.piece
      ⟨g.piece_position.x, g.piece_position.y + 1⟩ = true) :
    Game.advance_game g rng = lockStep g rng := by
  rw [Game.advance_game, lockStep]
  simp only [Game.move_piece, Int.add_zero, hcol, eq_self_iff_true,
    if_true, ite_true, Bool.false_eq_true, if_false, ite_false]
  cases hclr : Board.clear_lines
      (g.board.lock_piece g.piece g.piece_position).cells with
  | none => rfl
  | some pr =>
    obtain ⟨cells2, increm⟩ := pr
    cases hpop : PieceBag.pop g.piece_bag rng with
    | none => rfl
    | some out =>
      obtain ⟨p1, bag1, rng2⟩ := out
      dsimp only []
      split <;> split <;> simp [*]

/-! ### Claims -/

/-- Claim C4: for every board `B`, piece `P` and origin `O`,
`collision_test(P, O)` returns `true` if and only if some filled cell
`(r, c)` of `P` maps to an absolute position `O + (c, r)` that lies outside
`[0, WIDTH) x [0, HEIGHT)` or lands on a non-empty cell of `B`.  (In this
embedding `collision_test` is a pure function by construction: it returns
a value and touches no state.) -/
theorem collision_test_correct (b : Board) (p : Piece) (o : Point) :
    b.collision_test p o = true ↔
      ∃ row col, p.IsFilled row col ∧
        (o.x + col < 0 ∨ (BOARD_WIDTH : Int) ≤ o.x + col ∨
         o.y + row < 0 ∨ (BOARD_HEIGHT : Int) ≤ o.y + row ∨
         b.cellAt (o.y + row).toNat (o.x + col).toNat ≠ none) := by
  rw [Board.collision_test_iff]
  constructor
  · rintro ⟨⟨r, c⟩, hmem, hviol⟩
    exact ⟨r, c, (p.mem_points _).1 hmem,
      (b.cellViolates_iff o r c).1 hviol⟩
  · rintro ⟨r, c, hfill, hviol⟩
    exact ⟨(r, c), (p.mem_points _).2 hfill,
      (b.cellViolates_iff o r c).2 hviol⟩

theorem Board.collision_test_checked_aux (b : Board)
    (hlen : b.cells.length = BOARD_HEIGHT)
    (hrow : ∀ r ∈ b.cells, r.length = BOARD_WIDTH) (o : Point) :
    ∀ (l : List (Nat × Nat)) (found : Bool),
      (l.foldlM
        (fun found rc =>
          if found then some true
          else
            let x : Int := o.x + rc.2
            let y : Int := o.y + rc.1
            if x < 0 || x ≥ (BOARD_WIDTH : Int) || y < 0 ||
                y ≥ (BOARD_HEIGHT : Int) then
              some true
            else
              match b.cells.get? y.toNat with
              | none => none
              | some row =>
                match row.get? x.toNat with
                | none => none
                | some cell => some (cell ≠ none))
        found : Option Bool) =
      some (l.foldl
        (fun found rc => if found then found else b.cellViolates o rc) found)
  | [], found => by simp
  | rc :: l, found => by
    rw [List.foldlM_cons, List.foldl_cons]
    cases found with
    | true =>
      simpa using Board.collision_test_checked_aux b hlen hrow o l true
    | false =>
      by_cases hoob : ((o.x + rc.2 : Int) < 0 || (o.x + rc.2 : Int) ≥
          (BOARD_WIDTH : Int) || (o.y + rc.1 : Int) < 0 ||
          (o.y + rc.1 : Int) ≥ (BOARD_HEIGHT : Int)) = true
      · have hviol : b.cellViolates o rc = true := by
          simp only [Board.cellViolates, Bool.or_eq_true] at hoob ⊢
          tauto
        simp only [Bool.false_eq_true, if_false, hoob, if_true, hviol]
        simpa using Board.collision_test_checked_aux b hlen hrow o l true
      · have hx0 : (0 : Int) ≤ o.x + rc.2 := by
          simp only [Bool.or_eq_true, decide_eq_true_eq] at hoob; omega
        have hx1 : o.x + rc.2 < (BOARD_WIDTH : Int) := by
          simp only [Bool.or_eq_true, decide_eq_true_eq] at hoob; omega
        have hy0 : (0 : Int) ≤ o.y + rc.1 := by
          simp only [Bool.or_eq_true, decide_eq_true_eq] at hoob; omega
        have hy1 : o.y + rc.1 < (BOARD_HEIGHT : Int) := by
          simp only [Bool.or_eq_true, decide_eq_true_eq] at hoob; omega
        have hyn : (o.y + rc.1).toNat < b.cells.length := by omega
        have hgety : b.cells.get? (o.y + rc.1).toNat =
            some (b.cells[(o.y + rc.1).toNat]) := by
          rw [List.get?_eq_getElem?, List.getElem?_eq_getElem hyn]
        have hrowlen : (b.cells[(o.y + rc.1).toNat]).length = BOARD_WIDTH :=
          hrow _ (List.getElem_mem hyn)
        have hxn : (o.x + rc.2).toNat < (b.cells[(o.y + rc.1).toNat]).length := by
          omega
        have hgetx : (b.cells[(o.y + rc.1).toNat]).get? (o.x + rc.2).toNat =
            some ((b.cells[(o.y + rc.1).toNat])[(o.x + rc.2).toNat]) := by
          rw [List.get?_eq_getElem?, List.getElem?_eq_getElem hxn]
        have hcell : b.cellAt (o.y + rc.1).toNat (o.x + rc.2).toNat =
            (b.cells[(o.y + rc.1).toNat])[(o.x + rc.2).toNat] := by
          simp [Board.cellAt, List.getD_eq_getElem?_getD,
            List.getElem?_eq_getElem hyn, List.getElem?_eq_getElem hxn]
        have hviol : b.cellViolates o rc =
            decide ((b.cells[(o.y + rc.1).toNat])[(o.x + rc.2).toNat] ≠
              none) := by
          simp only [Board.cellViolates, Bool.or_eq_true] at hoob ⊢
          rw [← hcell]
          simp only [Bool.or_eq_true, decide_eq_true_eq] at hoob
          have h1 : decide ((o.x + (rc.2 : Int)) < 0) = false := by
            simp; omega
          have h2 : decide ((o.x + (rc.2 : Int)) ≥ (BOARD_WIDTH : Int)) =
              false := by simp; omega
          have h3 : decide ((o.y + (rc.1 : Int)) < 0) = false := by
            simp; omega
          have h4 : decide ((o.y + (rc.1 : Int)) ≥ (BOARD_HEIGHT : Int)) =
              false := by simp; omega
          rw [h1, h2, h3, h4]
          simp
        rw [if_neg (by simp), if_neg (by simpa using hoob)]
        simp only [hgety, hgetx, Option.bind_eq_bind, Option.some_bind]
        rw [hviol]
        exact Board.collision_test_checked_aux b hlen hrow o l _

/-- Claim C10: for every well-formed board, every piece and every integer
origin (negative or out-of-range coordinates included), `collision_test`
is total: every bounds test precedes the corresponding grid read, so the
checked evaluation (where an out-of-range read would be a panic, `none`)
always succeeds and returns the same boolean as `collision_test`. -/
theorem collision_test_total (b : Board) (p : Piece) (o : Point)
    (hb : b.WellFormed) :
    b.collision_test_checked p o = some (b.collision_test p o) := by
  obtain ⟨hlen, hrow⟩ := hb
  unfold Board.collision_test_checked Board.collision_test
  exact Board.collision_test_checked_aux b hlen hrow o p.points false

/-- Witness for `collision_test_total`: the fixed 20 x 10 empty board is
well-formed, and the checked collision test agrees with `collision_test`
for the O-piece at the far out-of-range origin `(-7, 35)`. -/
theorem collision_test_total_witness :
    (Board.mk (List.replicate 20 (List.replicate 10 (none : Cell)))).WellFormed
      ∧ (Board.mk (List.replicate 20 (List.replicate 10 (none : Cell)))).collision_test_checked
          Piece.new_o ⟨-7, 35⟩ =
        some ((Board.mk (List.replicate 20 (List.replicate 10 (none : Cell)))).collision_test
          Piece.new_o ⟨-7, 35⟩) :=
  ⟨by decide, collision_test_total _ Piece.new_o ⟨-7, 35⟩ (by decide)⟩

set_option maxHeartbeats 1000000 in
/-- Claim C7: for every `N` in 2..4 and every `N x N` occupancy matrix
(entries arbitrary), `Piece::rotate` produces exactly the matrix obtained
by rotating the input 90 degrees via transpose-plus-reverse, in both the
clockwise (`Right`: transpose, then reverse each row) and counter-clockwise
(`Left`: reverse each row, then transpose) directions. -/
theorem rotate_eq_transpose_reverse :
    (∀ (col : Color) (a b c d : Nat),
      (Piece.mk col [[a, b], [c, d]]).rotate Direction.Right =
        Piece.mk col (rotCW [[a, b], [c, d]]) ∧
      (Piece.mk col [[a, b], [c, d]]).rotate Direction.Left =
        Piece.mk col (rotCCW [[a, b], [c, d]])) ∧
    (∀ (col : Color) (a b c d e f g h i : Nat),
      (Piece.mk col [[a, b, c], [d, e, f], [g, h, i]]).rotate
          Direction.Right =
        Piece.mk col (rotCW [[a, b, c], [d, e, f], [g, h, i]]) ∧
      (Piece.mk col [[a, b, c], [d, e, f], [g, h, i]]).rotate
          Direction.Left =
        Piece.mk col (rotCCW [[a, b, c], [d, e, f], [g, h, i]])) ∧
    (∀ (col : Color) (a b c d e f g h i j k l m n o p : Nat),
      (Piece.mk col
          [[a, b, c, d], [e, f, g, h], [i, j, k, l], [m, n, o, p]]).rotate
          Direction.Right =
        Piece.mk col
          (rotCW [[a, b, c, d], [e, f, g, h], [i, j, k, l], [m, n, o, p]]) ∧
      (Piece.mk col
          [[a, b, c, d], [e, f, g, h], [i, j, k, l], [m, n, o, p]]).rotate
          Direction.Left =
        Piece.mk col
          (rotCCW [[a, b, c, d], [e, f, g, h], [i, j, k, l], [m, n, o, p]])) := by
  refine ⟨fun _ _ _ _ _ => ⟨rfl, rfl⟩,
    fun _ _ _ _ _ _ _ _ _ _ => ⟨rfl, rfl⟩, ?_⟩
  intro col a b c d e f g h i j k l m n o p
  have hR : Piece.rotateShape Direction.Right
      [[a, b, c, d], [e, f, g, h], [i, j, k, l], [m, n, o, p]] =
      [[m, i, e, a], [n, j, f, b], [o, k, g, c], [p, l, h, d]] := by
    simp only [Piece.rotateShape, show Piece.half 4 = 2 from rfl,
      show List.range 2 = [0, 1] from rfl,
      show List.range' 0 3 = [0, 1, 2] from rfl,
      show List.range' 1 1 = [1] from rfl,
      List.foldl_cons, List.foldl_nil, List.length_cons, List.length_nil,
      Piece.rotateStep, Piece.entry, Piece.writeEntry]
    norm_num [List.set]
  have hRS : rotCW [[a, b, c, d], [e, f, g, h], [i, j, k, l], [m, n, o, p]] =
      [[m, i, e, a], [n, j, f, b], [o, k, g, c], [p, l, h, d]] := by
    simp [rotCW, transposeSq, show List.range 4 = [0, 1, 2, 3] from rfl]
  have hL : Piece.rotateShape Direction.Left
      [[a, b, c, d], [e, f, g, h], [i, j, k, l], [m, n, o, p]] =
      [[d, h, l, p], [c, g, k, o], [b, f, j, n], [a, e, i, m]] := by
    simp only [Piece.rotateShape, show Piece.half 4 = 2 from rfl,
      show List.range 2 = [0, 1] from rfl,
      show List.range' 0 3 = [0, 1, 2] from rfl,
      show List.range' 1 1 = [1] from rfl,
      List.foldl_cons, List.foldl_nil, List.length_cons, List.length_nil,
      Piece.rotateStep, Piece.entry, Piece.writeEntry]
    norm_num [List.set]
  have hLS : rotCCW [[a, b, c, d], [e, f, g, h], [i, j, k, l], [m, n, o, p]] =
      [[d, h, l, p], [c, g, k, o], [b, f, j, n], [a, e, i, m]] := by
    simp [rotCCW, transposeSq, show List.range 4 = [0, 1, 2, 3] from rfl]
  constructor
  · simp only [Piece.rotate, Piece.mk.injEq, true_and]
    rw [hR, hRS]
  · simp only [Piece.rotate, Piece.mk.injEq, true_and]
    rw [hL, hLS]

/-- Claim C8: for each of the seven piece types, applying `rotate` four
times in the same direction (either direction) returns the shape matrix to
its original value. -/
theorem rotate_four_times_id :
    ∀ p ∈ PieceBag.sevenPieces, ∀ d : Direction,
      (((p.rotate d).rotate d).rotate d).rotate d = p := by
  intro p hp d
  fin_cases hp <;> cases d <;> decide

/-- Witness for `rotate_four_times_id`: the T-piece is one of the seven,
and four left rotations return it to itself. -/
theorem rotate_four_times_id_witness :
    Piece.new_t ∈ PieceBag.sevenPieces ∧
      (((Piece.new_t.rotate Direction.Left).rotate
          Direction.Left).rotate Direction.Left).rotate Direction.Left =
        Piece.new_t :=
  ⟨by decide, rotate_four_times_id Piece.new_t (by decide) Direction.Left⟩

theorem Game.dropLoop_eq (b : Board) (piece : Piece) (x : Int) :
    ∀ (fuel : Nat) (y : Int) (n : Nat), n < fuel →
      b.collision_test piece ⟨x, y + n⟩ = true →
      (∀ j : Nat, j < n → b.collision_test piece ⟨x, y + j⟩ = false) →
      Game.dropLoop b piece fuel ⟨x, y⟩ = some ⟨x, y + n - 1⟩ := by
  intro fuel
  induction fuel with
  | zero => omega
  | succ fuel ih =>
    intro y n hn hcoll hfree
    rw [Game.dropLoop]
    by_cases h0 : b.collision_test piece ⟨x, y⟩ = true
    · have hn0 : n = 0 := by
        by_contra hne
        have hc := hfree 0 (by omega)
        simp only [Int.ofNat_zero, Int.add_zero] at hc
        simp [hc] at h0
      subst hn0
      rw [if_pos h0]
      congr 1
      simp
    · have hn1 : n ≠ 0 := by
        intro hne
        subst hne
        rw [show y + (0 : Nat) = y by omega] at hcoll
        exact h0 hcoll
      obtain ⟨m, rfl⟩ : ∃ m, n = m + 1 := ⟨n - 1, by omega⟩
      rw [if_neg (by simpa using h0)]
      have := ih (y + 1) m (by omega)
        (by rw [show y + 1 + (m : Int) = y + ((m + 1 : Nat) : Int) by
              push_cast; omega]; exact hcoll)
        (fun j hj => by
          rw [show y + 1 + (j : Int) = y + ((j + 1 : Nat) : Int) by
            push_cast; omega]
          exact hfree (j + 1) (by omega))
      rw [this]
      congr 2
      push_cast
      omega

theorem Board.collision_test_of_below (b : Board) (piece : Piece)
    (x y : Int) (r c : Nat) (hfill : piece.IsFilled r c)
    (hy : (BOARD_HEIGHT : Int) ≤ y + r) :
    b.collision_test piece ⟨x, y⟩ = true :=
  (collision_test_correct b piece ⟨x, y⟩).2
    ⟨r, c, hfill, Or.inr (Or.inr (Or.inr (Or.inl hy)))⟩

/-- Claim C9: for every board and every piece with at least one filled
cell, if the active piece's current origin is collision-free then
`find_dropped_position` terminates with `some` result: the origin whose `y`
is the greatest one reachable from the current origin through successive
one-row downward moves that are all collision-free.  (The function reads
the game and mutates nothing.) -/
theorem find_dropped_position_correct (g : Game)
    (hfill : ∃ r c, g.piece.IsFilled r c)
    (hfree : g.board.collision_test g.piece g.piece_position = false) :
    ∃ yd : Int,
      g.find_dropped_position = some ⟨g.piece_position.x, yd⟩ ∧
      g.piece_position.y ≤ yd ∧
      (∀ z : Int, g.piece_position.y ≤ z → z ≤ yd →
        g.board.collision_test g.piece ⟨g.piece_position.x, z⟩ = false) ∧
      (∀ z : Int, g.piece_position.y ≤ z →
        (∀ w : Int, g.piece_position.y ≤ w → w ≤ z →
          g.board.collision_test g.piece ⟨g.piece_position.x, w⟩ = false) →
        z ≤ yd) := by
  obtain ⟨r, c, hrc⟩ := hfill
  set x := g.piece_position.x with hx
  set y0 := g.piece_position.y with hy0
  have hbound : -(g.piece.size : Int) < y0 := by
    by_contra hcon
    push_neg at hcon
    have hviol : g.board.collision_test g.piece g.piece_position = true :=
      (collision_test_correct _ _ _).2
        ⟨r, c, hrc, Or.inr (Or.inr (Or.inl (by
          have : r < g.piece.size := hrc.1
          omega)))⟩
    rw [hfree] at hviol
    exact Bool.false_eq_true.mp hviol
  have hex : ∃ k : Nat,
      g.board.collision_test g.piece ⟨x, y0 + k⟩ = true := by
    refine ⟨((BOARD_HEIGHT : Int) - y0).toNat, ?_⟩
    exact g.board.collision_test_of_below g.piece x _ r c hrc (by
      have : r < g.piece.size := hrc.1
      omega)
  classical
  set n := Nat.find hex with hn
  have hcoll : g.board.collision_test g.piece ⟨x, y0 + n⟩ = true :=
    Nat.find_spec hex
  have hmin : ∀ j : Nat, j < n →
      g.board.collision_test g.piece ⟨x, y0 + j⟩ = false := by
    intro j hj
    simpa using Nat.find_min hex hj
  have hn1 : 1 ≤ n := by
    rcases Nat.eq_zero_or_pos n with h | h
    · exfalso
      rw [h] at hcoll
      simp only [Int.ofNat_zero, Int.add_zero] at hcoll
      have hcp : g.board.collision_test g.piece g.piece_position = true :=
        hcoll
      simp [hfree] at hcp
    · exact h
  have hnbound : n ≤ ((BOARD_HEIGHT : Int) - y0).toNat := by
    by_contra hcon
    push_neg at hcon
    have := hmin _ hcon
    rw [g.board.collision_test_of_below g.piece x _ r c hrc (by
      have : r < g.piece.size := hrc.1
      omega)] at this
    exact Bool.true_eq_false.mp this
  have hfuel : n < BOARD_HEIGHT + g.piece.size + 1 := by omega
  have hrun := Game.dropLoop_eq g.board g.piece x
    (BOARD_HEIGHT + g.piece.size + 1) y0 n hfuel hcoll hmin
  refine ⟨y0 + n - 1, ?_, by omega, ?_, ?_⟩
  · unfold Game.find_dropped_position
    exact hrun
  · intro z hz1 hz2
    have hj : ((z - y0).toNat : Int) = z - y0 := by omega
    have := hmin (z - y0).toNat (by omega)
    rw [show y0 + (((z - y0).toNat : Nat) : Int) = z by omega] at this
    exact this
  · intro z hz1 hall
    by_contra hcon
    push_neg at hcon
    have hw := hall (y0 + n) (by omega) (by omega)
    rw [hcoll] at hw
    exact Bool.true_eq_false.mp hw

theorem swapRemove_perm :
    ∀ (l : List Piece) (i : Nat), i < l.length →
      ((swapRemove l i).1 :: (swapRemove l i).2).Perm l
  | [], i, h => by simp at h
  | a :: t, 0, _ => by
    unfold swapRemove
    rcases eq_or_ne t [] with rfl | ht
    · simp
    · have hgl : (a :: t).getLastD default = t.getLast ht := by
        rw [List.getLastD_cons, List.getLastD_eq_getLast?,
          List.getLast?_eq_getLast t ht, Option.getD_some]
      have hset : (a :: t).set 0 ((a :: t).getLastD default) =
          t.getLast ht :: t := by rw [hgl]; rfl
      rw [hset, List.dropLast_cons_of_ne_nil ht]
      have h2 : (t.getLast ht :: t.dropLast).Perm
          (t.dropLast ++ [t.getLast ht]) :=
        (List.perm_append_singleton _ _).symm
      rw [List.dropLast_append_getLast ht] at h2
      exact List.Perm.cons a h2
  | a :: t, i + 1, h => by
    have ht : t ≠ [] := by
      intro h0
      subst h0
      simp at h
    have hgl : (a :: t).getLastD default = t.getLastD default := by
      rw [List.getLastD_cons, List.getLastD_eq_getLast?,
        List.getLastD_eq_getLast?, List.getLast?_eq_getLast t ht,
        Option.getD_some, Option.getD_some]
    unfold swapRemove
    have hsetne : t.set i ((a :: t).getLastD default) ≠ [] := by
      intro h0
      have hlen0 := congrArg List.length h0
      simp at hlen0
      exact ht hlen0
    rw [show (a :: t).set (i + 1) ((a :: t).getLastD default) =
        a :: t.set i ((a :: t).getLastD default) from rfl]
    rw [List.dropLast_cons_of_ne_nil hsetne, hgl]
    have ih := swapRemove_perm t i (by
      simp only [List.length_cons] at h
      omega)
    unfold swapRemove at ih
    rw [show (a :: t).getD (i + 1) default = t.getD i default from rfl]
    exact (List.Perm.swap a _ _).trans (List.Perm.cons a ih)

theorem fillBagAux_perm :
    ∀ (n : Nat) (pool : List Piece), pool.length = n →
      ∀ (acc : List Piece) (rng : Rng),
        ∃ app : List Piece,
          (PieceBag.fillBagAux acc pool rng).1 = acc ++ app ∧
          app.Perm pool := by
  intro n
  induction n with
  | zero =>
    intro pool hp acc rng
    have hnil : pool = [] := List.eq_nil_of_length_eq_zero hp
    subst hnil
    exact ⟨[], by simp [PieceBag.fillBagAux], List.Perm.refl _⟩
  | succ n ih =>
    intro pool hp acc rng
    match pool, hp with
    | p :: rest, hp =>
      rw [PieceBag.fillBagAux]
      have hilt : rng.headD 0 % (p :: rest).length < (p :: rest).length :=
        Nat.mod_lt _ (by simp)
      have hlen :
          (swapRemove (p :: rest) (rng.headD 0 % (p :: rest).length)).2.length
            = n := by
        simp only [swapRemove, List.length_dropLast, List.length_set,
          List.length_cons]
        simp only [List.length_cons] at hp
        omega
      obtain ⟨app, happ, hperm⟩ := ih _ hlen
        (acc ++ [(swapRemove (p :: rest)
          (rng.headD 0 % (p :: rest).length)).1]) rng.tail
      refine ⟨(swapRemove (p :: rest)
        (rng.headD 0 % (p :: rest).length)).1 :: app, ?_, ?_⟩
      · rw [happ]
        simp
      · exact (List.Perm.cons _ hperm).trans (swapRemove_perm _ _ hilt)

/-- Claim C6: the piece-bag invariant.  Every fill appends exactly one
permutation of the seven standard tetromino pieces (pairwise distinct, so
no duplicate and no omission); a freshly created bag is non-empty; a `pop`
from a non-empty bag always succeeds and leaves a non-empty bag (the bag
refills itself the moment it empties); and `peek` on a non-empty bag never
hits the panicking empty case. -/
theorem piece_bag_invariant :
    (∀ (pieces : List Piece) (rng : Rng), ∃ app : List Piece,
        (PieceBag.fill_bag pieces rng).1 = pieces ++ app ∧
        app.Perm PieceBag.sevenPieces) ∧
    PieceBag.sevenPieces.Nodup ∧
    (∀ rng : Rng, (PieceBag.new rng).1 ≠ []) ∧
    (∀ (pieces : List Piece) (rng : Rng), pieces ≠ [] →
      ∃ out : Piece × List Piece × Rng,
        PieceBag.pop pieces rng = some out ∧ out.2.1 ≠ []) ∧
    (∀ pieces : List Piece, pieces ≠ [] → (PieceBag.peek pieces).isSome) := by
  have hfill : ∀ (pieces : List Piece) (rng : Rng), ∃ app : List Piece,
      (PieceBag.fill_bag pieces rng).1 = pieces ++ app ∧
      app.Perm PieceBag.sevenPieces := by
    intro pieces rng
    exact fillBagAux_perm PieceBag.sevenPieces.length PieceBag.sevenPieces
      rfl pieces rng
  have hfill_ne : ∀ rng : Rng, (PieceBag.fill_bag [] rng).1 ≠ [] := by
    intro rng hcon
    obtain ⟨app, happ, hperm⟩ := hfill [] rng
    rw [hcon] at happ
    have happ0 : app = [] := by simpa using happ.symm
    subst happ0
    have hlen := hperm.length_eq
    simp [PieceBag.sevenPieces] at hlen
  refine ⟨hfill, by decide, ?_, ?_, ?_⟩
  · intro rng
    exact hfill_ne rng
  · intro pieces rng hne
    match pieces with
    | p :: rest =>
      by_cases hrest : rest.isEmpty
      · refine ⟨(p, (PieceBag.fill_bag rest rng).1,
          (PieceBag.fill_bag rest rng).2), ?_, ?_⟩
        · simp [PieceBag.pop, hrest]
        · have : rest = [] := List.isEmpty_iff.mp hrest
          subst this
          exact hfill_ne rng
      · refine ⟨(p, rest, rng), ?_, ?_⟩
        · simp [PieceBag.pop, hrest]
        · exact fun hcon => hrest (by simp [show rest = [] from hcon])
  · intro pieces hne
    match pieces with
    | p :: rest => simp [PieceBag.peek]

/-- Witness for `piece_bag_invariant`: a fill from the empty queue with the
all-zero random stream appends a permutation of the seven pieces, and a
pop from the singleton bag `[O]` succeeds and leaves a refilled non-empty
bag; `peek` there is `some`. -/
theorem piece_bag_invariant_witness :
    (∃ app : List Piece,
        (PieceBag.fill_bag [] []).1 = [] ++ app ∧
        app.Perm PieceBag.sevenPieces) ∧
    (∃ out : Piece × List Piece × Rng,
        PieceBag.pop [Piece.new_o] [] = some out ∧ out.2.1 ≠ []) ∧
    (PieceBag.peek [Piece.new_o]).isSome :=
  ⟨piece_bag_invariant.1 [] [],
   piece_bag_invariant.2.2.2.1 [Piece.new_o] [] (by decide),
   piece_bag_invariant.2.2.2.2 [Piece.new_o] (by decide)⟩

theorem Board.clearWhile_not_full (fuel : Nat) (cells : List (List Cell))
    (row cleared : Nat) (r : List Cell) (hr : cells[row]? = some r)
    (hnf : Board.rowFull r = false) :
    Board.clearWhile (fuel + 1) cells row cleared = some (cells, cleared) := by
  rw [Board.clearWhile, List.get?_eq_getElem?, hr]
  dsimp only []
  rw [hnf]
  simp

theorem Board.clearOuter_no_full :
    ∀ (row : Nat) (cells : List (List Cell)),
      (∀ r ∈ cells, Board.rowFull r = false) → row < cells.length →
      Board.clearOuter cells row 0 = some (cells, 0) := by
  intro row
  induction row with
  | zero =>
    intro cells h hlt
    obtain ⟨r0, rest, rfl⟩ : ∃ r0 rest, cells = r0 :: rest := by
      cases cells with
      | nil => simp at hlt
      | cons r0 rest => exact ⟨r0, rest, rfl⟩
    have hnf : Board.rowFull r0 = false := h r0 (List.mem_cons_self r0 rest)
    rw [Board.clearOuter]
    simp [Board.clearWhile, hnf]
  | succ rr ih =>
    intro cells h hlt
    have hr : cells[rr + 1]? = some (cells.getD (rr + 1) []) := by
      rw [List.getElem?_eq_getElem hlt,
        List.getD_eq_getElem?_getD, List.getElem?_eq_getElem hlt]
      rfl
    have hnf : Board.rowFull (cells.getD (rr + 1) []) = false := by
      apply h
      rw [List.getD_eq_getElem?_getD, List.getElem?_eq_getElem hlt]
      exact List.getElem_mem hlt
    rw [Board.clearOuter]
    rw [if_neg (show ¬(rr + 1 < 0) by omega)]
    dsimp only []
    rw [if_neg (show ¬(0 < 0) by omega)]
    dsimp only []
    rw [show (rr + 1 + 2) = (rr + 2) + 1 from rfl,
      Board.clearWhile_not_full (rr + 2) cells (rr + 1) 0 _ hr hnf]
    dsimp only []
    exact ih cells h (by omega)

/-- Claim C1 (code bug): on the height-12 test board with exactly rows 2,
5 and 9 full, `clear_lines` does return 3 with the nine non-full rows
preserved in their relative order at the bottom and three empty rows on
top.  The universal statement fails on the code, though: on a height-12
board whose top row is full (and no other), the claimed result would be
the same board shifted down by one, but the `row - cleared_lines`
subtraction of the source underflows and the call panics (`none`) instead
of returning. -/
theorem clear_lines_behavior :
    Board.clear_lines rows259 =
      some ([Board.emptyRow, Board.emptyRow, Board.emptyRow, oneBlockRow 0,
        oneBlockRow 1, oneBlockRow 3, oneBlockRow 4, oneBlockRow 6,
        oneBlockRow 7, oneBlockRow 8, oneBlockRow 0, oneBlockRow 1], 3) ∧
    Board.clear_lines topRowFull12 = none :=
  ⟨by decide, by decide⟩

/-- Claim C5 (code bug): on every board with zero full rows `clear_lines`
returns 0 and leaves the board unchanged; but on the 20-row board in which
every row is full it does not return the board height with an emptied
grid — the `row - cleared_lines` subtraction underflows and the call
panics (`none`). -/
theorem clear_lines_edge_cases :
    (∀ cells : List (List Cell),
      (∀ r ∈ cells, Board.rowFull r = false) →
      Board.clear_lines cells = some (cells, 0)) ∧
    Board.clear_lines allFull20 = none := by
  constructor
  · intro cells h
    cases hlen : cells.length with
    | zero =>
      unfold Board.clear_lines
      rw [hlen]
    | succ n =>
      unfold Board.clear_lines
      rw [hlen]
      exact Board.clearOuter_no_full n cells h (by omega)
  · decide

/-- Witness for `clear_lines_edge_cases`: the empty 20 x 10 board has no
full row, and `clear_lines` leaves it unchanged returning 0. -/
theorem clear_lines_edge_cases_witness :
    (∀ r ∈ emptyBoard.cells, Board.rowFull r = false) ∧
    Board.clear_lines emptyBoard.cells = some (emptyBoard.cells, 0) :=
  ⟨by decide, clear_lines_edge_cases.1 emptyBoard.cells (by decide)⟩

/-- Claim C2 counterexample: `advance_game` on `gameScore10` (score 10,
level 2) locks a piece that clears zero lines — the cumulative cleared-line
count stays at 10, so no multiple of 10 is crossed and no tenth cumulative
line arrives — yet the level increments again, from 2 to 3: the level does
not increment exactly once per tenth cumulative cleared line. -/
theorem advance_game_level_counterexample :
    gameScore10.level = 2 ∧ gameScore10.score = 10 ∧
    (Game.advance_game gameScore10 []).map
      (fun t => (t.1.score, t.1.level)) = some (10, 3) :=
  ⟨rfl, rfl, by decide⟩

/-- Claim C2 (amended): on every `advance_game` call that returns, the
level increments by exactly one precisely when the downward move fails
(the piece locks) and the post-clear score is a nonzero multiple of 10 —
whether or not that call cleared any line — and is unchanged on every
other call.  In particular, clearing lines one at a time from score 0, the
lock that brings the score from 9 to 10 increments the level by exactly
one (and at most one increment can happen per call). -/
theorem advance_game_level_rule (g : Game) (rng : Rng)
    (g1 : Game) (rng1 : Rng) (b : Bool)
    (h : Game.advance_game g rng = some (g1, rng1, b)) :
    (g1.level = g.level ∨ g1.level = g.level + 1) ∧
    (g1.level = g.level + 1 ↔
      g.board.collision_test g.piece
        ⟨g.piece_position.x, g.piece_position.y + 1⟩ = true ∧
      g1.score % 10 = 0 ∧ g1.score ≠ 0) := by
  cases hcol : g.board.collision_test g.piece
      ⟨g.piece_position.x, g.piece_position.y + 1⟩ with
  | false =>
    rw [Game.advance_game_of_move g rng hcol] at h
    simp only [Option.some.injEq, Prod.mk.injEq] at h
    obtain ⟨hg1, -, -⟩ := h
    subst hg1
    refine ⟨Or.inl rfl, ?_⟩
    constructor
    · intro hlev
      exfalso
      dsimp only [] at hlev
      omega
    · rintro ⟨hc, -⟩
      simp at hc
  | true =>
    rw [Game.advance_game_of_lock g rng hcol, lockStep] at h
    cases hclr : Board.clear_lines
        (g.board.lock_piece g.piece g.piece_position).cells with
    | none =>
      rw [hclr] at h
      simp at h
    | some pr =>
      obtain ⟨cells2, increm⟩ := pr
      rw [hclr] at h
      cases hpop : PieceBag.pop g.piece_bag rng with
      | none =>
        rw [hpop] at h
        simp at h
      | some out =>
        obtain ⟨p1, bag1, rng2⟩ := out
        rw [hpop] at h
        dsimp only [] at h
        simp only [Option.some.injEq, Prod.mk.injEq] at h
        obtain ⟨hg1, -, -⟩ := h
        have hlev : g1.level = (if (g.score + increm) % 10 == 0 &&
            (g.score + increm) != 0 then g.level + 1 else g.level) := by
          rw [← hg1, Game.place_new_piece]
          dsimp only []
          split <;> rfl
        have hsc : g1.score = g.score + increm := by
          rw [← hg1, Game.place_new_piece]
          dsimp only []
          split <;> rfl
        rw [hlev, hsc]
        by_cases hy : ((g.score + increm) % 10 == 0 &&
            (g.score + increm) != 0) = true
        · rw [if_pos hy]
          simp only [Bool.and_eq_true, beq_iff_eq, bne_iff_ne] at hy
          refine ⟨Or.inr rfl, ?_⟩
          simp [hcol, hy.1, hy.2]
        · rw [if_neg hy]
          simp only [Bool.and_eq_true, beq_iff_eq, bne_iff_ne, not_and] at hy
          refine ⟨Or.inl rfl, ?_⟩
          constructor
          · intro hh
            omega
          · rintro ⟨-, h1, h2⟩
            exact absurd (hy h1) (by simpa using h2)

/-- Witness for `advance_game_level_rule`: from `gameScore9` (score 9,
level 1) the call locks, clears exactly one line — the ninth-to-tenth
transition — and the level increments from 1 to exactly 2. -/
theorem advance_game_level_rule_witness :
    Game.advance_game gameScore9 [] = some (gameScore9Result, [], true) ∧
    (gameScore9Result.level = gameScore9.level ∨
      gameScore9Result.level = gameScore9.level + 1) ∧
    (gameScore9Result.level = gameScore9.level + 1 ↔
      gameScore9.board.collision_test gameScore9.piece
        ⟨gameScore9.piece_position.x, gameScore9.piece_position.y + 1⟩ =
          true ∧
      gameScore9Result.score % 10 = 0 ∧ gameScore9Result.score ≠ 0) := by
  have h : Game.advance_game gameScore9 [] =
      some (gameScore9Result, [], true) := by decide
  exact ⟨h, advance_game_level_rule gameScore9 [] gameScore9Result [] true h⟩

/-- Claim C3: `advance_game` first attempts to move the active piece one
row down.  When that move succeeds the call returns `true` and the only
change is the piece's position — board, score, level, bag and active piece
are untouched.  When it fails, the call runs the lock-clear-score-pop-place
pipeline (`lockStep`, assembled from `lock_piece`, `clear_lines`, the
score/level update, `pop` and `place_new_piece` exactly as the claim lists
them); whenever the call returns, the returned flag is `false` exactly
when the piece was locked and the spawn placement of the popped piece
collides. -/
theorem advance_game_structure (g : Game) (rng : Rng) :
    Game.advance_game g rng =
      (if g.board.collision_test g.piece
          ⟨g.piece_position.x, g.piece_position.y + 1⟩ then
        lockStep g rng
      else
        some ({ g with piece_position :=
          ⟨g.piece_position.x, g.piece_position.y + 1⟩ }, rng, true)) ∧
    (∀ g1 rng1 b, Game.advance_game g rng = some (g1, rng1, b) →
      (b = false ↔
        g.board.collision_test g.piece
          ⟨g.piece_position.x, g.piece_position.y + 1⟩ = true ∧
        g1.board.collision_test g1.piece (Game.spawnOrigin g1.piece) =
          true)) := by
  constructor
  · cases hcol : g.board.collision_test g.piece
        ⟨g.piece_position.x, g.piece_position.y + 1⟩ with
    | false =>
      rw [Game.advance_game_of_move g rng hcol, if_neg (by simp [hcol])]
    | true =>
      rw [Game.advance_game_of_lock g rng hcol, if_pos (by simp [hcol])]
  · intro g1 rng1 b h
    cases hcol : g.board.collision_test g.piece
        ⟨g.piece_position.x, g.piece_position.y + 1⟩ with
    | false =>
      rw [Game.advance_game_of_move g rng hcol] at h
      simp only [Option.some.injEq, Prod.mk.injEq] at h
      obtain ⟨-, -, hb⟩ := h
      subst hb
      constructor
      · intro hfb
        simp at hfb
      · rintro ⟨hc, -⟩
        simp at hc
    | true =>
      rw [Game.advance_game_of_lock g rng hcol, lockStep] at h
      cases hclr : Board.clear_lines
          (g.board.lock_piece g.piece g.piece_position).cells with
      | none =>
        rw [hclr] at h
        simp at h
      | some pr =>
        obtain ⟨cells2, increm⟩ := pr
        rw [hclr] at h
        cases hpop : PieceBag.pop g.piece_bag rng with
        | none =>
          rw [hpop] at h
          simp at h
        | some out =>
          obtain ⟨p1, bag1, rng2⟩ := out
          rw [hpop] at h
          dsimp only [] at h
          simp only [Option.some.injEq, Prod.mk.injEq] at h
          obtain ⟨hg1, -, hb⟩ := h
          rw [Game.place_new_piece] at hg1 hb
          dsimp only [] at hg1 hb
          by_cases hpl : Board.collision_test ⟨cells2⟩ p1
              (Game.spawnOrigin p1) = true
          · rw [if_pos hpl] at hg1 hb
            dsimp only [] at hg1 hb
            subst hb
            subst hg1
            constructor
            · intro hfb
              exact ⟨rfl, hpl⟩
            · intro hfb
              rfl
          · rw [if_neg hpl] at hg1 hb
            dsimp only [] at hg1 hb
            subst hb
            subst hg1
            constructor
            · intro hfb
              simp at hfb
            · rintro ⟨-, hc⟩
              exact absurd hc hpl

/-- Witness for `advance_game_structure`: from `gameDrop` the downward move
succeeds, so the call returns exactly the moved game and `true`, and the
returned-false characterization holds at that result. -/
theorem advance_game_structure_witness :
    Game.advance_game gameDrop [] = some (gameDropMoved, [], true) ∧
    (true = false ↔
      gameDrop.board.collision_test gameDrop.piece
        ⟨gameDrop.piece_position.x, gameDrop.piece_position.y + 1⟩ = true ∧
      gameDropMoved.board.collision_test gameDropMoved.piece
        (Game.spawnOrigin gameDropMoved.piece) = true) := by
  have h : Game.advance_game gameDrop [] = some (gameDropMoved, [], true) :=
    by decide
  exact ⟨h, (advance_game_structure gameDrop []).2 gameDropMoved [] true h⟩

/-- Witness for `find_dropped_position_correct`: the O-piece on the empty
board has filled cells, its position `(4, 0)` is collision-free, and the
hard-drop projection exists with the stated greatest-reachable-row
properties. -/
theorem find_dropped_position_correct_witness :
    (∃ r c, gameDrop.piece.IsFilled r c) ∧
    gameDrop.board.collision_test gameDrop.piece gameDrop.piece_position =
      false ∧
    (∃ yd : Int,
      gameDrop.find_dropped_position =
        some ⟨gameDrop.piece_position.x, yd⟩ ∧
      gameDrop.piece_position.y ≤ yd ∧
      (∀ z : Int, gameDrop.piece_position.y ≤ z → z ≤ yd →
        gameDrop.board.collision_test gameDrop.piece
          ⟨gameDrop.piece_position.x, z⟩ = false) ∧
      (∀ z : Int, gameDrop.piece_position.y ≤ z →
        (∀ w : Int, gameDrop.piece_position.y ≤ w → w ≤ z →
          gameDrop.board.collision_test gameDrop.piece
            ⟨gameDrop.piece_position.x, w⟩ = false) →
        z ≤ yd)) :=
  ⟨⟨0, 0, by decide⟩, by decide,
    find_dropped_position_correct gameDrop ⟨0, 0, by decide⟩ (by decide)⟩

end Tetrust
